import Mathlib

/-!
Verification of the voxel chunk storage and mesh-generation subsystem of
ZombShot (`src/client/world/Chunk.ts`: classes `Chunk` and `VoxelWorld`).

Modelling notes.
* `Uint8Array` storage is modelled as a total function `Nat → Nat` from flat
  index to stored code; a write stores `value % 256` (the `ToUint8` coercion
  performed by a typed-array store), and the array is zero-initialised.
* Mesh geometry is modelled by the deterministic buffers the code builds:
  vertex positions, per-vertex normals and the triangle index list.  The
  per-vertex colors are produced with `Math.random()` jitter and carry no
  geometric information; they are outside the model (every property stated
  here is about geometry, which the code computes without randomness).
* `VoxelWorld.chunks` is a JavaScript `Map` keyed by the string
  `` `${cx},${cy},${cz}` ``; it is modelled as an association list with
  `Map.get`/`Map.set` semantics (first matching key wins; `set` replaces the
  entry in place when the key is present and appends otherwise).
* The `SimplexNoise` instance comes from the external `three/addons` library,
  not from this repository; it is modelled as an abstract function
  `noise : ℚ → ℚ → ℚ` carried by the world.  `Math.floor` on the integer /
  noise arithmetic is exact floor (`Int.fdiv`, `Int.floor`).
* Scene-graph attachment (`addToScene`), sounds, coins, buildings and
  lighting do not touch the voxel data and are out of scope.
-/

/-- The deterministic part of a chunk's render geometry: one entry of
`positions` per vertex (the code flattens this as `positions[3k]`), one
normal per vertex, and the triangle index list (three entries per
triangle, six per quad). -/
structure MeshData where
  positions : List (Int × Int × Int)
  normals : List (Int × Int × Int)
  indices : List Nat
deriving DecidableEq

/-- A chunk: a cube of `size³` voxel type codes at world origin
`(x, y, z)`, plus its derived mesh. -/
structure Chunk where
  x : Int
  y : Int
  z : Int
  size : Nat
  voxels : Nat → Nat
  mesh : MeshData

/-- Constructor `new Chunk(x, y, z, size)`: zero-filled voxel array, empty geometry. -/
def Chunk.create (x y z : Int) (size : Nat) : Chunk :=
  { x := x, y := y, z := z, size := size, voxels := fun _ => 0,
    mesh := ⟨[], [], []⟩ }

/-- Flat index `getIndex(x, y, z) = x + y*size + z*size*size`. -/
def Chunk.getIndex (c : Chunk) (x y z : Int) : Int :=
  x + y * c.size + z * c.size * c.size

/-- Source `Chunk.getVoxel`: returns `0` out of range, else the stored code. -/
def Chunk.getVoxel (c : Chunk) (x y z : Int) : Nat :=
  if x < 0 ∨ (c.size : Int) ≤ x ∨ y < 0 ∨ (c.size : Int) ≤ y
      ∨ z < 0 ∨ (c.size : Int) ≤ z then 0
  else c.voxels (c.getIndex x y z).toNat

/-- Source `Chunk.setVoxel`: no-op out of range, else stores `value % 256` at the
flat index (typed-array byte store). -/
def Chunk.setVoxel (c : Chunk) (x y z : Int) (v : Nat) : Chunk :=
  if x < 0 ∨ (c.size : Int) ≤ x ∨ y < 0 ∨ (c.size : Int) ≤ y
      ∨ z < 0 ∨ (c.size : Int) ≤ z then c
  else { c with voxels :=
    fun i => if i = (c.getIndex x y z).toNat then v % 256 else c.voxels i }

/-- The `faces` table of `updateGeometry`: direction vector and the four
corner offsets of the emitted quad, in source order. -/
def faceDirs : List ((Int × Int × Int) × List (Nat × Nat × Nat)) :=
  [ ((1, 0, 0), [(0, 1, 0), (0, 0, 0), (0, 1, 1), (0, 0, 1)]),
    ((-1, 0, 0), [(1, 1, 1), (1, 0, 1), (1, 1, 0), (1, 0, 0)]),
    ((0, 1, 0), [(0, 0, 1), (1, 0, 1), (0, 0, 0), (1, 0, 0)]),
    ((0, -1, 0), [(0, 1, 0), (1, 1, 0), (0, 1, 1), (1, 1, 1)]),
    ((0, 0, 1), [(1, 1, 0), (1, 0, 0), (0, 1, 0), (0, 0, 0)]),
    ((0, 0, -1), [(0, 1, 1), (0, 0, 1), (1, 1, 1), (1, 0, 1)]) ]

/-- The faces `updateGeometry` emits for local cell `(x, y, z)`: none when
the cell's code is `0`, otherwise exactly those of the six directions whose
neighbor (read through `getVoxel`, out-of-range reading `0`) is empty. -/
def Chunk.emittedFaces (c : Chunk) (x y z : Nat) :
    List ((Int × Int × Int) × List (Nat × Nat × Nat)) :=
  if c.getVoxel x y z = 0 then []
  else faceDirs.filter fun f =>
    c.getVoxel ((x : Int) + f.1.1) ((y : Int) + f.1.2.1)
      ((z : Int) + f.1.2.2) == 0

/-- Emit one quad for cell `(x, y, z)` and face `f`: four vertices at the
cell's unit-cube corners, four copies of the face normal, and the six
indices `ndx, ndx+1, ndx+2, ndx+2, ndx+1, ndx+3` based at the current
vertex count. -/
def emitFace (x y z : Nat) (m : MeshData)
    (f : (Int × Int × Int) × List (Nat × Nat × Nat)) : MeshData :=
  let n := m.positions.length
  { positions := m.positions ++ f.2.map fun p =>
      ((x : Int) + p.1, (y : Int) + p.2.1, (z : Int) + p.2.2),
    normals := m.normals ++ f.2.map fun _ => f.1,
    indices := m.indices ++ [n, n + 1, n + 2, n + 2, n + 1, n + 3] }

/-- Process one cell of the `updateGeometry` triple loop. -/
def Chunk.emitCell (c : Chunk) (m : MeshData) (cell : Nat × Nat × Nat) :
    MeshData :=
  (c.emittedFaces cell.1 cell.2.1 cell.2.2).foldl
    (emitFace cell.1 cell.2.1 cell.2.2) m

/-- The cells visited by `updateGeometry`, in loop order
(`x` outer, `y` middle, `z` inner). -/
def cellList (S : Nat) : List (Nat × Nat × Nat) :=
  ((List.range S).map fun x =>
    ((List.range S).map fun y =>
      (List.range S).map fun z => (x, y, z)).flatten).flatten

/-- The geometry `updateGeometry` builds from the current voxel array
(colors, which are randomised, excluded). -/
def Chunk.computeGeometry (c : Chunk) : MeshData :=
  (cellList c.size).foldl c.emitCell ⟨[], [], []⟩

/-- Source `updateGeometry()`: replace the mesh with geometry rebuilt from the
current voxel array. -/
def Chunk.updateGeometry (c : Chunk) : Chunk :=
  { c with mesh := c.computeGeometry }

/-- The `Map` key `` `${cx},${cy},${cz}` ``. -/
def chunkKey (cx cy cz : Int) : String :=
  toString cx ++ "," ++ toString cy ++ "," ++ toString cz

/-- Semantics of `Map.get`: the first entry with the key, if any. -/
def mapGet (m : List (String × Chunk)) (k : String) : Option Chunk :=
  (m.find? fun p => p.1 == k).map fun p => p.2

/-- Semantics of `Map.set`: replace the value at the key if present, else append. -/
def mapSet (m : List (String × Chunk)) (k : String) (v : Chunk) :
    List (String × Chunk) :=
  if (m.find? fun p => p.1 == k).isSome then
    m.map fun p => if p.1 == k then (k, v) else p
  else m ++ [(k, v)]

/-- The world: sparse chunk registry, fixed chunk side length, and the
noise function (abstract stand-in for the external `SimplexNoise`). -/
structure VoxelWorld where
  chunks : List (String × Chunk)
  chunkSize : Nat
  noise : ℚ → ℚ → ℚ

/-- Constructor `new VoxelWorld(scene)`: empty registry, `chunkSize = 16`, fresh noise. -/
def VoxelWorld.create (noise : ℚ → ℚ → ℚ) : VoxelWorld :=
  { chunks := [], chunkSize := 16, noise := noise }

/-- Chunk coordinate `Math.floor(w / S)` for an integer world coordinate: floor division. -/
def worldToChunk (S : Nat) (w : Int) : Int :=
  Int.fdiv w S

/-- The local offset `w - chunkCoord * S` computed by `getVoxel`/`setVoxel`. -/
def worldToLocal (S : Nat) (w : Int) : Int :=
  w - worldToChunk S w * S

/-- Source `VoxelWorld.getVoxel`: resolve chunk and local coordinates; `0` when no
chunk is registered there, else delegate to the chunk's `getVoxel`. -/
def VoxelWorld.getVoxel (w : VoxelWorld) (x y z : Int) : Nat :=
  match mapGet w.chunks (chunkKey (worldToChunk w.chunkSize x)
      (worldToChunk w.chunkSize y) (worldToChunk w.chunkSize z)) with
  | none => 0
  | some c =>
      c.getVoxel (worldToLocal w.chunkSize x) (worldToLocal w.chunkSize y)
        (worldToLocal w.chunkSize z)

/-- Source `VoxelWorld.setVoxel`: no-op when the target chunk is unregistered;
otherwise delegate to the chunk's `setVoxel` and immediately rebuild that
chunk's mesh. -/
def VoxelWorld.setVoxel (w : VoxelWorld) (x y z : Int) (v : Nat) :
    VoxelWorld :=
  match mapGet w.chunks (chunkKey (worldToChunk w.chunkSize x)
      (worldToChunk w.chunkSize y) (worldToChunk w.chunkSize z)) with
  | none => w
  | some c =>
      { w with chunks := (mapSet w.chunks
          (chunkKey (worldToChunk w.chunkSize x) (worldToChunk w.chunkSize y)
            (worldToChunk w.chunkSize z))
          ((c.setVoxel (worldToLocal w.chunkSize x)
            (worldToLocal w.chunkSize y)
            (worldToLocal w.chunkSize z) v).updateGeometry)) }

/-- The fixed noise sampling frequency `0.05`. -/
def frequency : ℚ :=
  1 / 20

/-- The terrain height of a column:
`Math.floor((noise(wx*frequency, wz*frequency) + 1) * 4)`. -/
def heightAt (noise : ℚ → ℚ → ℚ) (wx wz : Int) : Int :=
  Int.floor ((noise (wx * frequency) (wz * frequency) + 1) * 4)

/-- The per-cell terrain classification of `generateChunk`: dirt (`2`)
strictly below the surface layer, grass (`3`) on the surface layer
`worldY = height - 1`, air (`0`) above. -/
def classify (height wy : Int) : Nat :=
  if wy < height - 1 then 2
  else if wy = height - 1 then 3
  else 0

/-- The inner `y` loop of `generateChunk` for the column at local `(x, z)`. -/
def genColumn (c : Chunk) (x z : Nat) (height : Int) (cy : Int) (S : Nat) :
    Chunk :=
  (List.range S).foldl
    (fun ch (y : Nat) => ch.setVoxel x y z (classify height (cy * S + y))) c

/-- The inner `z` loop of `generateChunk` at fixed local `x`: sample the
height at world `(wx, wz)` and fill each column. -/
def genRow (noise : ℚ → ℚ → ℚ) (cx cy cz : Int) (S : Nat) (x : Nat)
    (c : Chunk) : Chunk :=
  (List.range S).foldl
    (fun ch z =>
      genColumn ch x z (heightAt noise (cx * S + x) (cz * S + z)) cy S) c

/-- The full terrain-population loop of `generateChunk` (outer `x` loop). -/
def genTerrain (noise : ℚ → ℚ → ℚ) (cx cy cz : Int) (S : Nat) (c : Chunk) :
    Chunk :=
  (List.range S).foldl (fun ch x => genRow noise cx cy cz S x ch) c

/-- Source `VoxelWorld.generateChunk`: if the key is registered do nothing; else
create a chunk at world origin `(cx·S, cy·S, cz·S)`, run the terrain pass,
build its mesh and register it. -/
def VoxelWorld.generateChunk (w : VoxelWorld) (cx cy cz : Int) : VoxelWorld :=
  if (mapGet w.chunks (chunkKey cx cy cz)).isSome then w
  else
    { w with chunks := (mapSet w.chunks (chunkKey cx cy cz)
        ((genTerrain w.noise cx cy cz w.chunkSize
          (Chunk.create (cx * w.chunkSize) (cy * w.chunkSize)
            (cz * w.chunkSize) w.chunkSize)).updateGeometry)) }

/-- Key uniqueness invariant of the registry: a `Map` holds at most one
entry per key, modelled as no duplicate keys in the association list. -/
def WFKeys (w : VoxelWorld) : Prop :=
  (w.chunks.map Prod.fst).Nodup

/-- A small concrete world (side length 2, constant noise, one registered
chunk at the origin) used to instantiate the theorems on explicit inputs. -/
def sampleWorld : VoxelWorld :=
  { chunks := [(chunkKey 0 0 0, Chunk.create 0 0 0 2)], chunkSize := 2,
    noise := fun _ _ => 0 }

/-! ### Basic facts about `Chunk.setVoxel` / `Chunk.getVoxel` -/

theorem Chunk.size_setVoxel (c : Chunk) (x y z : Int) (v : Nat) :
    (c.setVoxel x y z v).size = c.size := by
  unfold Chunk.setVoxel
  split <;> rfl

theorem Chunk.size_updateGeometry (c : Chunk) :
    c.updateGeometry.size = c.size := rfl

theorem Chunk.getVoxel_updateGeometry (c : Chunk) (x y z : Int) :
    c.updateGeometry.getVoxel x y z = c.getVoxel x y z := rfl

theorem Chunk.computeGeometry_updateGeometry (c : Chunk) :
    c.updateGeometry.computeGeometry = c.computeGeometry := rfl

theorem Chunk.mesh_updateGeometry (c : Chunk) :
    c.updateGeometry.mesh = c.updateGeometry.computeGeometry := rfl

/-- Injectivity of the flat index `x + y·S + z·S²` on `[0,S)³`. -/
theorem flatIndex_inj {S x y z x' y' z' : Int}
    (hx0 : 0 ≤ x) (hx1 : x < S) (hy0 : 0 ≤ y) (hy1 : y < S)
    (hz0 : 0 ≤ z) (hz1 : z < S)
    (hx0' : 0 ≤ x') (hx1' : x' < S) (hy0' : 0 ≤ y') (hy1' : y' < S)
    (hz0' : 0 ≤ z') (hz1' : z' < S)
    (h : x + y * S + z * S * S = x' + y' * S + z' * S * S) :
    x = x' ∧ y = y' ∧ z = z' := by
  have hS : 0 < S := lt_of_le_of_lt hx0 hx1
  have h1 : x = x' := by
    have e1 : (x + S * (y + S * z)) % S = (x' + S * (y' + S * z')) % S := by
      rw [show x + S * (y + S * z) = x + y * S + z * S * S by ring,
          show x' + S * (y' + S * z') = x' + y' * S + z' * S * S by ring, h]
    rwa [Int.add_mul_emod_self_left, Int.add_mul_emod_self_left,
        Int.emod_eq_of_lt hx0 hx1, Int.emod_eq_of_lt hx0' hx1'] at e1
  have h2 : y + S * z = y' + S * z' := by
    have e2 : (y + S * z) * S = (y' + S * z') * S := by linear_combination h - h1
    exact mul_right_cancel₀ (by omega) e2
  have h3 : y = y' := by
    have e3 : (y + S * z) % S = (y' + S * z') % S := by rw [h2]
    rwa [Int.add_mul_emod_self_left, Int.add_mul_emod_self_left,
        Int.emod_eq_of_lt hy0 hy1, Int.emod_eq_of_lt hy0' hy1'] at e3
  refine ⟨h1, h3, ?_⟩
  have e4 : S * z = S * z' := by linear_combination h2 - h3
  exact mul_left_cancel₀ (by omega) e4

theorem Chunk.getIndex_nonneg (c : Chunk) {x y z : Int}
    (hx0 : 0 ≤ x) (hy0 : 0 ≤ y) (hz0 : 0 ≤ z) :
    0 ≤ c.getIndex x y z := by
  unfold Chunk.getIndex
  have h1 : 0 ≤ y * (c.size : Int) := mul_nonneg hy0 (by positivity)
  have h2 : 0 ≤ z * (c.size : Int) * (c.size : Int) := by positivity
  omega

theorem Chunk.getVoxel_setVoxel_self (c : Chunk) {x y z : Int} (v : Nat)
    (hx0 : 0 ≤ x) (hx1 : x < (c.size : Int)) (hy0 : 0 ≤ y)
    (hy1 : y < (c.size : Int)) (hz0 : 0 ≤ z) (hz1 : z < (c.size : Int)) :
    (c.setVoxel x y z v).getVoxel x y z = v % 256 := by
  have hcond : ¬(x < 0 ∨ (c.size : Int) ≤ x ∨ y < 0 ∨ (c.size : Int) ≤ y
      ∨ z < 0 ∨ (c.size : Int) ≤ z) := by omega
  simp only [Chunk.setVoxel, Chunk.getVoxel, Chunk.getIndex, if_neg hcond]
  simp

theorem Chunk.getVoxel_setVoxel_ne (c : Chunk) {x y z x' y' z' : Int}
    (v : Nat) (hne : ¬(x = x' ∧ y = y' ∧ z = z')) :
    (c.setVoxel x y z v).getVoxel x' y' z' = c.getVoxel x' y' z' := by
  unfold Chunk.setVoxel
  split
  · rfl
  next hset =>
    push_neg at hset
    obtain ⟨hx0, hx1, hy0, hy1, hz0, hz1⟩ := hset
    by_cases hout : x' < 0 ∨ (c.size : Int) ≤ x' ∨ y' < 0 ∨ (c.size : Int) ≤ y'
        ∨ z' < 0 ∨ (c.size : Int) ≤ z'
    · simp only [Chunk.getVoxel, if_pos hout]
    · simp only [Chunk.getVoxel, if_neg hout]
      push_neg at hout
      obtain ⟨hx0', hx1', hy0', hy1', hz0', hz1'⟩ := hout
      simp only [Chunk.getIndex]
      rw [if_neg]
      intro heq
      have hnn : 0 ≤ x' + y' * (c.size : Int) + z' * c.size * c.size := by
        have t1 : 0 ≤ y' * (c.size : Int) := mul_nonneg hy0' (Int.natCast_nonneg _)
        have t2 : 0 ≤ z' * (c.size : Int) * c.size :=
          mul_nonneg (mul_nonneg hz0' (Int.natCast_nonneg _)) (Int.natCast_nonneg _)
        linarith
      have hnn' : 0 ≤ x + y * (c.size : Int) + z * c.size * c.size := by
        have t1 : 0 ≤ y * (c.size : Int) := mul_nonneg hy0 (Int.natCast_nonneg _)
        have t2 : 0 ≤ z * (c.size : Int) * c.size :=
          mul_nonneg (mul_nonneg hz0 (Int.natCast_nonneg _)) (Int.natCast_nonneg _)
        linarith
      have heqI : x' + y' * (c.size : Int) + z' * c.size * c.size
          = x + y * (c.size : Int) + z * c.size * c.size := by
        rw [← Int.toNat_of_nonneg hnn, ← Int.toNat_of_nonneg hnn', heq]
      obtain ⟨e1, e2, e3⟩ := flatIndex_inj hx0' hx1' hy0' hy1' hz0' hz1'
        (by omega) (by omega) (by omega) (by omega) (by omega) (by omega) heqI
      exact hne ⟨e1.symm, e2.symm, e3.symm⟩

/-! ### The terrain-population loop -/

theorem classify_lt (height wy : Int) : classify height wy < 256 := by
  unfold classify
  split
  · norm_num
  · split <;> norm_num

theorem foldl_set_size (c : Chunk) (ys : List Nat) (gx gz : Int)
    (f : Nat → Nat) :
    (ys.foldl (fun ch (y : Nat) => ch.setVoxel gx y gz (f y)) c).size
      = c.size := by
  induction ys generalizing c with
  | nil => rfl
  | cons y ys ih =>
      rw [List.foldl_cons, ih]
      exact Chunk.size_setVoxel c gx y gz (f y)

theorem foldl_set_frame (c : Chunk) (ys : List Nat) (gx gz : Int)
    (f : Nat → Nat) {tx ty tz : Int}
    (hne : ∀ y ∈ ys, ¬(gx = tx ∧ (y : Int) = ty ∧ gz = tz)) :
    (ys.foldl (fun ch (y : Nat) => ch.setVoxel gx y gz (f y)) c).getVoxel
        tx ty tz
      = c.getVoxel tx ty tz := by
  induction ys generalizing c with
  | nil => rfl
  | cons y ys ih =>
      rw [List.foldl_cons, ih _ fun a ha => hne a (List.mem_cons_of_mem _ ha),
        Chunk.getVoxel_setVoxel_ne _ _ (hne y (List.mem_cons_self _ _))]

theorem foldl_set_get (c : Chunk) (ys : List Nat) (gx gz : Int)
    (f : Nat → Nat) (y0 : Nat) (hmem : y0 ∈ ys)
    (hx0 : 0 ≤ gx) (hx1 : gx < (c.size : Int))
    (hy1 : (y0 : Int) < (c.size : Int))
    (hz0 : 0 ≤ gz) (hz1 : gz < (c.size : Int)) :
    (ys.foldl (fun ch (y : Nat) => ch.setVoxel gx y gz (f y)) c).getVoxel
        gx y0 gz
      = f y0 % 256 := by
  induction ys generalizing c with
  | nil => cases hmem
  | cons y ys ih =>
      rw [List.foldl_cons]
      by_cases hmem2 : y0 ∈ ys
      · exact ih _ hmem2 (by rw [Chunk.size_setVoxel]; exact hx1)
          (by rw [Chunk.size_setVoxel]; exact hy1)
          (by rw [Chunk.size_setVoxel]; exact hz1)
      · have hy0eq : y0 = y := by
          rcases List.mem_cons.mp hmem with h | h
          · exact h
          · exact absurd h hmem2
        subst hy0eq
        rw [foldl_set_frame _ _ _ _ _ ?hne]
        case hne =>
          intro a ha hc
          exact hmem2 (by rwa [show a = y0 from Int.natCast_inj.mp hc.2.1] at ha)
        exact Chunk.getVoxel_setVoxel_self c (f y0) hx0 hx1
          (Int.natCast_nonneg y0) hy1 hz0 hz1

theorem genColumn_size (c : Chunk) (x z : Nat) (h cy : Int) (S : Nat) :
    (genColumn c x z h cy S).size = c.size := by
  unfold genColumn
  exact foldl_set_size c (List.range S) x z _

theorem genColumn_frame (c : Chunk) (x z : Nat) (h cy : Int) (S : Nat)
    {tx ty tz : Int} (hne : ¬((x : Int) = tx ∧ (z : Int) = tz)) :
    (genColumn c x z h cy S).getVoxel tx ty tz = c.getVoxel tx ty tz := by
  unfold genColumn
  exact foldl_set_frame c (List.range S) x z _
    fun _ _ hc => hne ⟨hc.1, hc.2.2⟩

theorem genColumn_get_same (c : Chunk) (x z y0 : Nat) (h cy : Int) (S : Nat)
    (hS : c.size = S) (hx : x < S) (hy : y0 < S) (hz : z < S) :
    (genColumn c x z h cy S).getVoxel x y0 z
      = classify h (cy * S + y0) := by
  unfold genColumn
  rw [foldl_set_get c (List.range S) x z _ y0 (List.mem_range.mpr hy)
    (Int.natCast_nonneg x) (by rw [hS]; exact_mod_cast hx)
    (by rw [hS]; exact_mod_cast hy)
    (Int.natCast_nonneg z) (by rw [hS]; exact_mod_cast hz)]
  exact Nat.mod_eq_of_lt (classify_lt _ _)

theorem foldl_genColumn_size (c : Chunk) (zs : List Nat) (x : Nat)
    (hgt : Nat → Int) (cy : Int) (S : Nat) :
    (zs.foldl (fun ch (z : Nat) => genColumn ch x z (hgt z) cy S) c).size
      = c.size := by
  induction zs generalizing c with
  | nil => rfl
  | cons z zs ih => rw [List.foldl_cons, ih, genColumn_size]

theorem foldl_genColumn_frame (c : Chunk) (zs : List Nat) (x : Nat)
    (hgt : Nat → Int) (cy : Int) (S : Nat) {tx ty tz : Int}
    (hne : ∀ z ∈ zs, ¬((x : Int) = tx ∧ (z : Int) = tz)) :
    (zs.foldl (fun ch (z : Nat) => genColumn ch x z (hgt z) cy S) c).getVoxel
        tx ty tz
      = c.getVoxel tx ty tz := by
  induction zs generalizing c with
  | nil => rfl
  | cons z zs ih =>
      rw [List.foldl_cons, ih _ fun a ha => hne a (List.mem_cons_of_mem _ ha),
        genColumn_frame _ _ _ _ _ _ (hne z (List.mem_cons_self _ _))]

theorem foldl_genColumn_get (c : Chunk) (zs : List Nat) (x z0 y0 : Nat)
    (hgt : Nat → Int) (cy : Int) (S : Nat) (hmem : z0 ∈ zs)
    (hS : c.size = S) (hx : x < S) (hy : y0 < S) (hz : z0 < S) :
    (zs.foldl (fun ch (z : Nat) => genColumn ch x z (hgt z) cy S) c).getVoxel
        x y0 z0
      = classify (hgt z0) (cy * S + y0) := by
  induction zs generalizing c with
  | nil => cases hmem
  | cons z zs ih =>
      rw [List.foldl_cons]
      by_cases hmem2 : z0 ∈ zs
      · exact ih _ hmem2 (by rw [genColumn_size]; exact hS)
      · have hz0eq : z0 = z := by
          rcases List.mem_cons.mp hmem with h | h
          · exact h
          · exact absurd h hmem2
        subst hz0eq
        rw [foldl_genColumn_frame _ _ _ _ _ _ ?hne]
        case hne =>
          intro a ha hc
          exact hmem2 (by rwa [show a = z0 from Int.natCast_inj.mp hc.2] at ha)
        exact genColumn_get_same c x z0 y0 _ cy S hS hx hy hz

theorem genRow_size (noise : ℚ → ℚ → ℚ) (cx cy cz : Int) (S : Nat) (x : Nat)
    (c : Chunk) : (genRow noise cx cy cz S x c).size = c.size := by
  unfold genRow
  exact foldl_genColumn_size c (List.range S) x _ cy S

theorem genRow_frame (noise : ℚ → ℚ → ℚ) (cx cy cz : Int) (S : Nat)
    (x : Nat) (c : Chunk) {tx ty tz : Int} (hne : (x : Int) ≠ tx) :
    (genRow noise cx cy cz S x c).getVoxel tx ty tz
      = c.getVoxel tx ty tz := by
  unfold genRow
  exact foldl_genColumn_frame c (List.range S) x _ cy S
    fun _ _ hc => hne hc.1

theorem genRow_get (noise : ℚ → ℚ → ℚ) (cx cy cz : Int) (S : Nat)
    (x y0 z0 : Nat) (c : Chunk) (hS : c.size = S)
    (hx : x < S) (hy : y0 < S) (hz : z0 < S) :
    (genRow noise cx cy cz S x c).getVoxel x y0 z0
      = classify (heightAt noise (cx * S + x) (cz * S + z0))
          (cy * S + y0) := by
  unfold genRow
  exact foldl_genColumn_get c (List.range S) x z0 y0 _ cy S
    (List.mem_range.mpr hz) hS hx hy hz

theorem foldl_genRow_size (c : Chunk) (xs : List Nat)
    (noise : ℚ → ℚ → ℚ) (cx cy cz : Int) (S : Nat) :
    (xs.foldl (fun ch (x : Nat) => genRow noise cx cy cz S x ch) c).size
      = c.size := by
  induction xs generalizing c with
  | nil => rfl
  | cons a xs ih => rw [List.foldl_cons, ih, genRow_size]

theorem foldl_genRow_frame (c : Chunk) (xs : List Nat)
    (noise : ℚ → ℚ → ℚ) (cx cy cz : Int) (S : Nat) {tx ty tz : Int}
    (hne : ∀ x ∈ xs, (x : Int) ≠ tx) :
    (xs.foldl (fun ch (x : Nat) => genRow noise cx cy cz S x ch) c).getVoxel
        tx ty tz
      = c.getVoxel tx ty tz := by
  induction xs generalizing c with
  | nil => rfl
  | cons a xs ih =>
      rw [List.foldl_cons, ih _ fun b hb => hne b (List.mem_cons_of_mem _ hb),
        genRow_frame _ _ _ _ _ _ _ (hne a (List.mem_cons_self _ _))]

theorem foldl_genRow_get (c : Chunk) (xs : List Nat)
    (noise : ℚ → ℚ → ℚ) (cx cy cz : Int) (S : Nat) (x0 y0 z0 : Nat)
    (hmem : x0 ∈ xs) (hS : c.size = S)
    (hx : x0 < S) (hy : y0 < S) (hz : z0 < S) :
    (xs.foldl (fun ch (x : Nat) => genRow noise cx cy cz S x ch) c).getVoxel
        x0 y0 z0
      = classify (heightAt noise (cx * S + x0) (cz * S + z0))
          (cy * S + y0) := by
  induction xs generalizing c with
  | nil => cases hmem
  | cons a xs ih =>
      rw [List.foldl_cons]
      by_cases hmem2 : x0 ∈ xs
      · exact ih _ hmem2 (by rw [genRow_size]; exact hS)
      · have hx0eq : x0 = a := by
          rcases List.mem_cons.mp hmem with h | h
          · exact h
          · exact absurd h hmem2
        subst hx0eq
        rw [foldl_genRow_frame _ _ _ _ _ _ _ ?hne]
        case hne =>
          intro b hb hc
          exact hmem2 (by rwa [show b = x0 from Int.natCast_inj.mp hc] at hb)
        exact genRow_get noise cx cy cz S x0 y0 z0 c hS hx hy hz

theorem genTerrain_size (noise : ℚ → ℚ → ℚ) (cx cy cz : Int) (S : Nat)
    (c : Chunk) : (genTerrain noise cx cy cz S c).size = c.size := by
  unfold genTerrain
  exact foldl_genRow_size c (List.range S) noise cx cy cz S

/-- Every in-range cell of the terrain pass is classified purely from the
noise-derived column height and the cell's world `y`. -/
theorem genTerrain_get (noise : ℚ → ℚ → ℚ) (cx cy cz : Int) (S : Nat)
    (c : Chunk) (hS : c.size = S) (x y z : Nat)
    (hx : x < S) (hy : y < S) (hz : z < S) :
    (genTerrain noise cx cy cz S c).getVoxel x y z
      = classify (heightAt noise (cx * S + x) (cz * S + z)) (cy * S + y) := by
  unfold genTerrain
  exact foldl_genRow_get c (List.range S) noise cx cy cz S x y z
    (List.mem_range.mpr hx) hS hx hy hz

/-! ### Counting the geometry built by `updateGeometry` -/

theorem faceDirs_corners (f : (Int × Int × Int) × List (Nat × Nat × Nat))
    (hf : f ∈ faceDirs) : f.2.length = 4 := by
  fin_cases hf <;> rfl

theorem emittedFaces_sub (c : Chunk) (x y z : Nat) :
    ∀ f ∈ c.emittedFaces x y z, f ∈ faceDirs := by
  intro f hf
  unfold Chunk.emittedFaces at hf
  split at hf
  · cases hf
  · exact List.mem_of_mem_filter hf

theorem emitFace_counts (x y z : Nat) (m : MeshData)
    (f : (Int × Int × Int) × List (Nat × Nat × Nat)) (hf : f.2.length = 4) :
    (emitFace x y z m f).positions.length = m.positions.length + 4
    ∧ (emitFace x y z m f).normals.length = m.normals.length + 4
    ∧ (emitFace x y z m f).indices.length = m.indices.length + 6 := by
  unfold emitFace
  simp [hf]

theorem foldl_emitFace_counts (x y z : Nat)
    (fs : List ((Int × Int × Int) × List (Nat × Nat × Nat))) (m : MeshData)
    (hfs : ∀ f ∈ fs, f.2.length = 4) :
    ((fs.foldl (emitFace x y z) m).positions.length
        = m.positions.length + 4 * fs.length)
    ∧ ((fs.foldl (emitFace x y z) m).normals.length
        = m.normals.length + 4 * fs.length)
    ∧ ((fs.foldl (emitFace x y z) m).indices.length
        = m.indices.length + 6 * fs.length) := by
  induction fs generalizing m with
  | nil => simp
  | cons f fs ih =>
      obtain ⟨h1, h2, h3⟩ :=
        emitFace_counts x y z m f (hfs f (List.mem_cons_self _ _))
      obtain ⟨g1, g2, g3⟩ := ih (emitFace x y z m f)
        fun a ha => hfs a (List.mem_cons_of_mem _ ha)
      rw [List.foldl_cons]
      simp only [List.length_cons]
      exact ⟨by omega, by omega, by omega⟩

theorem emitCell_counts (c : Chunk) (m : MeshData)
    (cell : Nat × Nat × Nat) :
    ((c.emitCell m cell).positions.length = m.positions.length
        + 4 * (c.emittedFaces cell.1 cell.2.1 cell.2.2).length)
    ∧ ((c.emitCell m cell).normals.length = m.normals.length
        + 4 * (c.emittedFaces cell.1 cell.2.1 cell.2.2).length)
    ∧ ((c.emitCell m cell).indices.length = m.indices.length
        + 6 * (c.emittedFaces cell.1 cell.2.1 cell.2.2).length) := by
  unfold Chunk.emitCell
  exact foldl_emitFace_counts _ _ _ _ m
    fun f hf => faceDirs_corners f (emittedFaces_sub c _ _ _ f hf)

theorem foldl_emitCell_counts (c : Chunk) (cells : List (Nat × Nat × Nat))
    (m : MeshData) :
    ((cells.foldl c.emitCell m).positions.length = m.positions.length
        + 4 * (cells.map fun p => (c.emittedFaces p.1 p.2.1 p.2.2).length).sum)
    ∧ ((cells.foldl c.emitCell m).normals.length = m.normals.length
        + 4 * (cells.map fun p => (c.emittedFaces p.1 p.2.1 p.2.2).length).sum)
    ∧ ((cells.foldl c.emitCell m).indices.length = m.indices.length
        + 6 * (cells.map fun p => (c.emittedFaces p.1 p.2.1 p.2.2).length).sum)
    := by
  induction cells generalizing m with
  | nil => simp
  | cons p cells ih =>
      obtain ⟨h1, h2, h3⟩ := emitCell_counts c m p
      obtain ⟨g1, g2, g3⟩ := ih (c.emitCell m p)
      rw [List.foldl_cons]
      simp only [List.map_cons, List.sum_cons]
      exact ⟨by omega, by omega, by omega⟩

/-- The total quad count of a chunk's rebuilt geometry: the sum over all
cells of the number of faces emitted for that cell. -/
def Chunk.quadTotal (c : Chunk) : Nat :=
  ((cellList c.size).map fun p => (c.emittedFaces p.1 p.2.1 p.2.2).length).sum

theorem computeGeometry_counts (c : Chunk) :
    c.computeGeometry.positions.length = 4 * c.quadTotal
    ∧ c.computeGeometry.normals.length = 4 * c.quadTotal
    ∧ c.computeGeometry.indices.length = 6 * c.quadTotal := by
  unfold Chunk.computeGeometry Chunk.quadTotal
  simpa using foldl_emitCell_counts c (cellList c.size) ⟨[], [], []⟩

/-! ### `Map` association-list lemmas -/

theorem mapGet_replace {k : String} (v : Chunk)
    (m : List (String × Chunk)) (h : (m.find? fun p => p.1 == k).isSome) :
    mapGet (m.map fun p => if p.1 == k then (k, v) else p) k = some v := by
  induction m with
  | nil => simp [List.find?] at h
  | cons p m ih =>
      unfold mapGet at ih ⊢
      rw [List.map_cons]
      by_cases hp : p.1 == k
      · rw [if_pos hp]
        simp [List.find?_cons]
      · rw [if_neg hp]
        have h' : (List.find? (fun q => q.1 == k) m).isSome := by
          simp only [List.find?_cons, hp] at h
          exact h
        simpa [List.find?_cons, hp] using ih h'

theorem mapGet_mapSet_self (m : List (String × Chunk)) (k : String)
    (v : Chunk) : mapGet (mapSet m k v) k = some v := by
  unfold mapSet
  split
  next h => exact mapGet_replace v m h
  next h =>
    have hn : (m.find? fun p => p.1 == k) = none :=
      Option.not_isSome_iff_eq_none.mp h
    unfold mapGet
    rw [List.find?_append, hn]
    simp [List.find?]

theorem keys_mapSet_present (m : List (String × Chunk)) (k : String)
    (v : Chunk) (h : (m.find? fun p => p.1 == k).isSome) :
    (mapSet m k v).map Prod.fst = m.map Prod.fst := by
  unfold mapSet
  rw [if_pos h, List.map_map]
  apply List.map_congr_left
  intro p _
  by_cases hpk : p.1 == k
  · simp only [Function.comp_apply, if_pos hpk]
    exact (eq_of_beq hpk).symm
  · simp only [Function.comp_apply, if_neg hpk]

theorem keys_mapSet_absent (m : List (String × Chunk)) (k : String)
    (v : Chunk) (h : (m.find? fun p => p.1 == k) = none) :
    (mapSet m k v).map Prod.fst = m.map Prod.fst ++ [k] := by
  unfold mapSet
  rw [if_neg (by simp [h])]
  simp

theorem not_mem_keys_of_find?_none (m : List (String × Chunk)) (k : String)
    (h : (m.find? fun p => p.1 == k) = none) : k ∉ m.map Prod.fst := by
  rw [List.find?_eq_none] at h
  intro hk
  obtain ⟨p, hp, hfst⟩ := List.mem_map.mp hk
  exact h p hp (by simp [hfst])

theorem countP_key_le_one (m : List (String × Chunk)) (k : String)
    (h : (m.map Prod.fst).Nodup) :
    m.countP (fun p => p.1 == k) ≤ 1 := by
  induction m with
  | nil => simp
  | cons p m ih =>
      rw [List.map_cons, List.nodup_cons] at h
      rw [List.countP_cons]
      by_cases hp : p.1 == k
      · have hzero : m.countP (fun q => q.1 == k) = 0 := by
          rw [List.countP_eq_zero]
          intro q hq hqk
          exact h.1 (List.mem_map.mpr
            ⟨q, hq, (eq_of_beq hqk).trans (eq_of_beq hp).symm⟩)
        simp [hp, hzero]
      · simpa [hp] using ih h.2

/-! ### Claim theorems -/

/-- C3: for every integer world coordinate and chunk size `S > 0`, the
chunk coordinate `⌊w/S⌋` and local offset `w − ⌊w/S⌋·S` computed by
`VoxelWorld.getVoxel`/`setVoxel` satisfy `0 ≤ local < S` and
`chunk·S + local = w`, including for negative inputs. -/
theorem addressing_roundtrip (S : Nat) (hS : 0 < S) (w : Int) :
    0 ≤ worldToLocal S w ∧ worldToLocal S w < S
      ∧ worldToChunk S w * S + worldToLocal S w = w := by
  have hS' : (0 : Int) < S := by exact_mod_cast hS
  unfold worldToLocal worldToChunk
  rw [Int.fdiv_eq_ediv _ (le_of_lt hS')]
  have key : w - w / (S : Int) * S = w % S := by
    rw [Int.emod_def]
    ring
  refine ⟨?_, ?_, by ring⟩
  · rw [key]
    exact Int.emod_nonneg w (ne_of_gt hS')
  · rw [key]
    exact Int.emod_lt_of_pos w hS'

theorem addressing_roundtrip_witness :
    (0 < 16 ∧ (0 ≤ worldToLocal 16 (-1) ∧ worldToLocal 16 (-1) < 16
        ∧ worldToChunk 16 (-1) * 16 + worldToLocal 16 (-1) = -1))
      ∧ worldToChunk 16 (-1) = -1 ∧ worldToLocal 16 (-1) = 15 :=
  ⟨⟨by decide, addressing_roundtrip 16 (by decide) (-1)⟩, by decide, by decide⟩

/-- C4: for every in-range local coordinate and code `v ∈ 0..255`,
`get` after `set` returns `v`. -/
theorem set_get_roundtrip (c : Chunk) (x y z : Int) (v : Nat)
    (hx0 : 0 ≤ x) (hx1 : x < (c.size : Int)) (hy0 : 0 ≤ y)
    (hy1 : y < (c.size : Int)) (hz0 : 0 ≤ z) (hz1 : z < (c.size : Int))
    (hv : v < 256) :
    (c.setVoxel x y z v).getVoxel x y z = v := by
  rw [Chunk.getVoxel_setVoxel_self c v hx0 hx1 hy0 hy1 hz0 hz1]
  exact Nat.mod_eq_of_lt hv

theorem set_get_roundtrip_witness :
    (0 ≤ (1 : Int) ∧ (1 : Int) < ((Chunk.create 0 0 0 4).size : Int)
        ∧ (255 : Nat) < 256)
      ∧ ((Chunk.create 0 0 0 4).setVoxel 1 2 3 255).getVoxel 1 2 3 = 255 :=
  ⟨⟨by decide, by decide, by decide⟩,
    set_get_roundtrip (Chunk.create 0 0 0 4) 1 2 3 255 (by decide) (by decide)
      (by decide) (by decide) (by decide) (by decide) (by decide)⟩

/-- C5: out-of-range local access on a chunk is defined behavior:
`get` returns `0`, `set` is a no-op leaving the voxel array unchanged. -/
theorem out_of_range_defined (c : Chunk) (x y z : Int) (v : Nat)
    (h : x < 0 ∨ (c.size : Int) ≤ x ∨ y < 0 ∨ (c.size : Int) ≤ y
      ∨ z < 0 ∨ (c.size : Int) ≤ z) :
    c.getVoxel x y z = 0 ∧ c.setVoxel x y z v = c
      ∧ (c.setVoxel x y z v).voxels = c.voxels := by
  refine ⟨?_, ?_, ?_⟩
  · unfold Chunk.getVoxel
    rw [if_pos h]
  · unfold Chunk.setVoxel
    rw [if_pos h]
  · unfold Chunk.setVoxel
    rw [if_pos h]

theorem out_of_range_defined_witness :
    ((-1 : Int) < 0 ∨ ((Chunk.create 0 0 0 4).size : Int) ≤ -1
        ∨ (2 : Int) < 0 ∨ ((Chunk.create 0 0 0 4).size : Int) ≤ 2
        ∨ (2 : Int) < 0 ∨ ((Chunk.create 0 0 0 4).size : Int) ≤ 2)
      ∧ (Chunk.create 0 0 0 4).getVoxel (-1) 2 2 = 0
      ∧ (Chunk.create 0 0 0 4).setVoxel (-1) 2 2 7 = Chunk.create 0 0 0 4 :=
  ⟨by decide,
    (out_of_range_defined (Chunk.create 0 0 0 4) (-1) 2 2 7 (by decide)).1,
    (out_of_range_defined (Chunk.create 0 0 0 4) (-1) 2 2 7 (by decide)).2.1⟩

/-- C10: an in-range `set` changes at most its own cell — every other
in-range coordinate reads the same value before and after (a consequence of
the injectivity of the flat index `x + y·S + z·S²` on `[0,S)³`). -/
theorem set_frame (c : Chunk) (x y z x' y' z' : Int) (v : Nat)
    (hx0 : 0 ≤ x) (hx1 : x < (c.size : Int)) (hy0 : 0 ≤ y)
    (hy1 : y < (c.size : Int)) (hz0 : 0 ≤ z) (hz1 : z < (c.size : Int))
    (hx0' : 0 ≤ x') (hx1' : x' < (c.size : Int)) (hy0' : 0 ≤ y')
    (hy1' : y' < (c.size : Int)) (hz0' : 0 ≤ z') (hz1' : z' < (c.size : Int))
    (hne : ¬(x = x' ∧ y = y' ∧ z = z')) :
    (c.setVoxel x y z v).getVoxel x' y' z' = c.getVoxel x' y' z' :=
  Chunk.getVoxel_setVoxel_ne c v hne

/-- C7: rebuilding twice with no intervening mutation yields the same
vertex positions, normals, triangle index list (hence face and triangle
counts), and mesh. -/
theorem rebuild_idempotent (c : Chunk) :
    c.updateGeometry.updateGeometry.mesh.positions
        = c.updateGeometry.mesh.positions
    ∧ c.updateGeometry.updateGeometry.mesh.indices
        = c.updateGeometry.mesh.indices
    ∧ c.updateGeometry.updateGeometry.mesh.indices.length
        = c.updateGeometry.mesh.indices.length
    ∧ c.updateGeometry.updateGeometry.mesh = c.updateGeometry.mesh :=
  ⟨rfl, rfl, rfl, rfl⟩

/-- C6: a world coordinate whose chunk is unregistered reads `0` and
writes are silent no-ops (no implicit chunk creation); a fresh world reads
`0` everywhere. -/
theorem unregistered_silent (w : VoxelWorld) (x y z : Int) (v : Nat)
    (habsent : mapGet w.chunks (chunkKey (worldToChunk w.chunkSize x)
      (worldToChunk w.chunkSize y) (worldToChunk w.chunkSize z)) = none) :
    w.getVoxel x y z = 0 ∧ w.setVoxel x y z v = w
      ∧ ∀ a b d : Int, (VoxelWorld.create w.noise).getVoxel a b d = 0 := by
  refine ⟨?_, ?_, fun a b d => rfl⟩
  · unfold VoxelWorld.getVoxel
    rw [habsent]
  · unfold VoxelWorld.setVoxel
    rw [habsent]

theorem unregistered_silent_witness :
    (VoxelWorld.create fun _ _ => 0).getVoxel 3 4 5 = 0
      ∧ (VoxelWorld.create fun _ _ => 0).setVoxel 3 4 5 7
          = VoxelWorld.create fun _ _ => 0 :=
  ⟨(unregistered_silent (VoxelWorld.create fun _ _ => 0) 3 4 5 7 rfl).1,
    (unregistered_silent (VoxelWorld.create fun _ _ => 0) 3 4 5 7 rfl).2.1⟩

/-- C2: after a rebuild, an empty cell contributes no quads, a fully
surrounded solid cell contributes no quads, a solid cell contributes one
quad per empty-neighbor direction; total vertex and index counts are
`4·quads` and `6·quads`; the `4×4×4` single-voxel scenario yields 24
vertices, 36 indices (12 triangles) and 6 quads. -/
theorem face_culling (c : Chunk) (x y z : Nat)
    (hx : x < c.size) (hy : y < c.size) (hz : z < c.size) :
    (c.getVoxel x y z = 0 → (c.emittedFaces x y z).length = 0)
    ∧ ((∀ f ∈ faceDirs, c.getVoxel ((x : Int) + f.1.1) ((y : Int) + f.1.2.1)
          ((z : Int) + f.1.2.2) ≠ 0) → (c.emittedFaces x y z).length = 0)
    ∧ (c.getVoxel x y z ≠ 0 → c.emittedFaces x y z
        = faceDirs.filter fun f => c.getVoxel ((x : Int) + f.1.1)
            ((y : Int) + f.1.2.1) ((z : Int) + f.1.2.2) == 0)
    ∧ c.computeGeometry.positions.length = 4 * c.quadTotal
    ∧ c.computeGeometry.indices.length = 6 * c.quadTotal
    ∧ ((Chunk.create 0 0 0 4).setVoxel 1 1 1
        1).updateGeometry.mesh.positions.length = 24
    ∧ ((Chunk.create 0 0 0 4).setVoxel 1 1 1
        1).updateGeometry.mesh.indices.length = 36
    ∧ ((Chunk.create 0 0 0 4).setVoxel 1 1 1 1).quadTotal = 6 := by
  refine ⟨?_, ?_, ?_, (computeGeometry_counts c).1,
    (computeGeometry_counts c).2.2, by decide, by decide, by decide⟩
  · intro h
    unfold Chunk.emittedFaces
    rw [if_pos h]
    rfl
  · intro h
    unfold Chunk.emittedFaces
    split
    · rfl
    · rw [List.length_eq_zero, List.filter_eq_nil_iff]
      intro f hf
      simpa using h f hf
  · intro h
    unfold Chunk.emittedFaces
    rw [if_neg h]

theorem face_culling_witness :
    ((Chunk.create 0 0 0 4).emittedFaces 1 1 1).length = 0 :=
  (face_culling (Chunk.create 0 0 0 4) 1 1 1 (by decide) (by decide)
    (by decide)).1 (by decide)

theorem generateChunk_registered (w : VoxelWorld) (cx cy cz : Int)
    (habsent : mapGet w.chunks (chunkKey cx cy cz) = none) :
    mapGet (w.generateChunk cx cy cz).chunks (chunkKey cx cy cz)
      = some ((genTerrain w.noise cx cy cz w.chunkSize
          (Chunk.create (cx * w.chunkSize) (cy * w.chunkSize)
            (cz * w.chunkSize) w.chunkSize)).updateGeometry) := by
  unfold VoxelWorld.generateChunk
  rw [if_neg (by simp [habsent])]
  exact mapGet_mapSet_self _ _ _

/-- C8: the terrain pass of `generateChunk` is pure — every in-range cell
of the registered chunk is classified solely from the noise-derived column
height and the cell's world `y`, so two runs with the same chunk
coordinate, noise and chunk size write identical voxel contents. -/
theorem terrain_deterministic (w : VoxelWorld) (cx cy cz : Int)
    (habsent : mapGet w.chunks (chunkKey cx cy cz) = none) :
    ∃ c, mapGet (w.generateChunk cx cy cz).chunks (chunkKey cx cy cz)
        = some c
      ∧ (∀ x y z : Nat, x < w.chunkSize → y < w.chunkSize →
          z < w.chunkSize → c.getVoxel x y z = classify
            (heightAt w.noise (cx * w.chunkSize + x) (cz * w.chunkSize + z))
            (cy * w.chunkSize + y))
      ∧ ∀ w2 : VoxelWorld, w2.noise = w.noise → w2.chunkSize = w.chunkSize →
          mapGet w2.chunks (chunkKey cx cy cz) = none →
          ∃ c2, mapGet (w2.generateChunk cx cy cz).chunks (chunkKey cx cy cz)
              = some c2
            ∧ ∀ x y z : Nat, x < w.chunkSize → y < w.chunkSize →
                z < w.chunkSize → c2.getVoxel x y z = c.getVoxel x y z := by
  refine ⟨_, generateChunk_registered w cx cy cz habsent, ?_, ?_⟩
  · intro x y z hx hy hz
    rw [Chunk.getVoxel_updateGeometry]
    exact genTerrain_get w.noise cx cy cz w.chunkSize _ rfl x y z hx hy hz
  · intro w2 hnoise hsize habsent2
    refine ⟨_, generateChunk_registered w2 cx cy cz habsent2, ?_⟩
    intro x y z hx hy hz
    rw [Chunk.getVoxel_updateGeometry, Chunk.getVoxel_updateGeometry,
      genTerrain_get w2.noise cx cy cz w2.chunkSize _ rfl x y z
        (by rw [hsize]; exact hx) (by rw [hsize]; exact hy)
        (by rw [hsize]; exact hz),
      genTerrain_get w.noise cx cy cz w.chunkSize _ rfl x y z hx hy hz,
      hnoise, hsize]

theorem terrain_deterministic_witness :
    (mapGet ((VoxelWorld.create fun _ _ => 0).generateChunk 0 0 0).chunks
      (chunkKey 0 0 0)).isSome := by
  obtain ⟨c, hc, -, -⟩ :=
    terrain_deterministic (VoxelWorld.create fun _ _ => 0) 0 0 0 rfl
  rw [hc]
  rfl

theorem nodup_keys_mapSet (m : List (String × Chunk)) (k : String)
    (v : Chunk) (h : (m.map Prod.fst).Nodup) :
    ((mapSet m k v).map Prod.fst).Nodup := by
  by_cases hx : (m.find? fun p => p.1 == k).isSome
  · rwa [keys_mapSet_present m k v hx]
  · have hn := Option.not_isSome_iff_eq_none.mp hx
    rw [keys_mapSet_absent m k v hn, List.nodup_append]
    refine ⟨h, List.nodup_singleton k, ?_⟩
    intro a ha hb
    rw [List.mem_singleton] at hb
    exact not_mem_keys_of_find?_none m k hn (hb ▸ ha)

/-- C9: the registry keeps at most one chunk per coordinate key: key
uniqueness holds initially and is preserved by `generateChunk` and
`setVoxel`, and `generateChunk` on an already-registered coordinate leaves
the whole world (registry and chunk) unchanged. -/
theorem registry_unique (w : VoxelWorld) (cx cy cz x y z : Int) (v : Nat)
    (hwf : WFKeys w) :
    WFKeys (VoxelWorld.create w.noise)
    ∧ WFKeys (w.generateChunk cx cy cz)
    ∧ WFKeys (w.setVoxel x y z v)
    ∧ w.chunks.countP (fun p => p.1 == chunkKey cx cy cz) ≤ 1
    ∧ ((mapGet w.chunks (chunkKey cx cy cz)).isSome →
        w.generateChunk cx cy cz = w) := by
  refine ⟨List.nodup_nil, ?_, ?_, countP_key_le_one w.chunks _ hwf, ?_⟩
  · unfold VoxelWorld.generateChunk
    split
    · exact hwf
    · exact nodup_keys_mapSet w.chunks _ _ hwf
  · unfold VoxelWorld.setVoxel
    cases hm : mapGet w.chunks (chunkKey (worldToChunk w.chunkSize x)
        (worldToChunk w.chunkSize y) (worldToChunk w.chunkSize z)) with
    | none => exact hwf
    | some ch => exact nodup_keys_mapSet w.chunks _ _ hwf
  · intro h
    unfold VoxelWorld.generateChunk
    rw [if_pos h]

theorem registry_unique_witness :
    sampleWorld.chunks.countP (fun p => p.1 == chunkKey 0 0 0) ≤ 1 :=
  (registry_unique sampleWorld 0 0 0 1 1 1 5
    (by simp [WFKeys, sampleWorld])).2.2.2.1

/-- C1: every voxel-mutating call path ends with a fresh mesh — after
`VoxelWorld.setVoxel` into a registered chunk, or `generateChunk` of a new
chunk, the target chunk's stored mesh equals the geometry rebuilt from its
current voxel array. -/
theorem mesh_fresh (w : VoxelWorld) (x y z : Int) (v : Nat)
    (cx cy cz : Int) :
    ((mapGet w.chunks (chunkKey (worldToChunk w.chunkSize x)
        (worldToChunk w.chunkSize y) (worldToChunk w.chunkSize z))).isSome →
      ∃ c, mapGet (w.setVoxel x y z v).chunks
          (chunkKey (worldToChunk w.chunkSize x) (worldToChunk w.chunkSize y)
            (worldToChunk w.chunkSize z)) = some c
        ∧ c.mesh = c.computeGeometry)
    ∧ (mapGet w.chunks (chunkKey cx cy cz) = none →
      ∃ c, mapGet (w.generateChunk cx cy cz).chunks (chunkKey cx cy cz)
          = some c ∧ c.mesh = c.computeGeometry) := by
  constructor
  · intro hsome
    obtain ⟨c0, hc0⟩ := Option.isSome_iff_exists.mp hsome
    unfold VoxelWorld.setVoxel
    rw [hc0]
    exact ⟨_, mapGet_mapSet_self _ _ _, rfl⟩
  · intro habsent
    exact ⟨_, generateChunk_registered w cx cy cz habsent, rfl⟩

theorem mesh_fresh_witness :
    ∃ c, mapGet (sampleWorld.setVoxel 1 1 1 5).chunks
        (chunkKey (worldToChunk sampleWorld.chunkSize 1)
          (worldToChunk sampleWorld.chunkSize 1)
          (worldToChunk sampleWorld.chunkSize 1)) = some c
      ∧ c.mesh = c.computeGeometry :=
  (mesh_fresh sampleWorld 1 1 1 5 0 0 0).1 (by decide)

theorem set_frame_witness :
    ((Chunk.create 0 0 0 4).setVoxel 1 1 1 9).getVoxel 2 1 1
      = (Chunk.create 0 0 0 4).getVoxel 2 1 1 :=
  set_frame (Chunk.create 0 0 0 4) 1 1 1 2 1 1 9 (by decide) (by decide)
    (by decide) (by decide) (by decide) (by decide) (by decide) (by decide)
    (by decide) (by decide) (by decide) (by decide) (by decide)
